import Mathlib

/-!
Verification of the PostForge text-transformation core
(`src/core/converter/{unicode-formatter,preprocess,presets}.ts`).

A JavaScript string is modelled as a `List Nat` of Unicode scalar values
(code points).  All delimiters handled by the converter's regexes are ASCII,
and every character class either contains or excludes both halves of a
surrogate pair, so the code-point model is observationally equivalent to
JavaScript's UTF-16 code-unit strings for every function embedded here; the
one place where UTF-16 shows through — `charCodeAt(0)` on an astral
character — is modelled explicitly by `charCodeAt0`.
-/

/-- Code points of a Lean string literal; used to write concrete inputs. -/
def str (s : String) : List Nat := s.data.map Char.toNat

/-- JavaScript `charCodeAt(0)` of a one-code-point string: the code point
itself on the BMP, otherwise the leading (high) surrogate of its UTF-16
encoding. -/
def charCodeAt0 (c : Nat) : Nat :=
  if c < 65536 then c else 55296 + (c - 65536) / 1024

/-- `toBoldChar` from `unicode-formatter.ts`: map A–Z, a–z, 0–9 into the
Mathematical Bold ranges, leave anything else unchanged. -/
def toBoldChar (c : Nat) : Nat :=
  let code := charCodeAt0 c
  if 65 ≤ code ∧ code ≤ 90 then 0x1D5D4 + (code - 65)
  else if 97 ≤ code ∧ code ≤ 122 then 0x1D5EE + (code - 97)
  else if 48 ≤ code ∧ code ≤ 57 then 0x1D7EC + (code - 48)
  else c

/-- `toItalicChar` from `unicode-formatter.ts`: letters only, no digits. -/
def toItalicChar (c : Nat) : Nat :=
  let code := charCodeAt0 c
  if 65 ≤ code ∧ code ≤ 90 then 0x1D608 + (code - 65)
  else if 97 ≤ code ∧ code ≤ 122 then 0x1D622 + (code - 97)
  else c

/-- `toBoldItalicChar` from `unicode-formatter.ts`. -/
def toBoldItalicChar (c : Nat) : Nat :=
  let code := charCodeAt0 c
  if 65 ≤ code ∧ code ≤ 90 then 0x1D63C + (code - 65)
  else if 97 ≤ code ∧ code ≤ 122 then 0x1D656 + (code - 97)
  else c

/-- `toBold`: `Array.from(text).map(toBoldChar).join('')`. -/
def toBold (s : List Nat) : List Nat := s.map toBoldChar

/-- `toItalic`. -/
def toItalic (s : List Nat) : List Nat := s.map toItalicChar

/-- `toBoldItalic`. -/
def toBoldItalic (s : List Nat) : List Nat := s.map toBoldItalicChar

lemma glyphChar_astral (r : Nat) (h : 65536 ≤ r) :
    toBoldChar r = r ∧ toItalicChar r = r ∧ toBoldItalicChar r = r := by
  have hc : charCodeAt0 r = 55296 + (r - 65536) / 1024 := by
    simp only [charCodeAt0]
    rw [if_neg (by omega)]
  refine ⟨?_, ?_, ?_⟩ <;>
    · simp only [toBoldChar, toItalicChar, toBoldItalicChar, hc]
      split_ifs <;> omega

lemma toBoldChar_idem (c : Nat) : toBoldChar (toBoldChar c) = toBoldChar c := by
  by_cases h1 : 65 ≤ charCodeAt0 c ∧ charCodeAt0 c ≤ 90
  · have hv : toBoldChar c = 120276 + (charCodeAt0 c - 65) := by
      simp only [toBoldChar]; rw [if_pos h1]
    rw [hv]; exact (glyphChar_astral _ (by omega)).1
  by_cases h2 : 97 ≤ charCodeAt0 c ∧ charCodeAt0 c ≤ 122
  · have hv : toBoldChar c = 120302 + (charCodeAt0 c - 97) := by
      simp only [toBoldChar]; rw [if_neg h1, if_pos h2]
    rw [hv]; exact (glyphChar_astral _ (by omega)).1
  by_cases h3 : 48 ≤ charCodeAt0 c ∧ charCodeAt0 c ≤ 57
  · have hv : toBoldChar c = 120812 + (charCodeAt0 c - 48) := by
      simp only [toBoldChar]; rw [if_neg h1, if_neg h2, if_pos h3]
    rw [hv]; exact (glyphChar_astral _ (by omega)).1
  · have hv : toBoldChar c = c := by
      simp only [toBoldChar]; rw [if_neg h1, if_neg h2, if_neg h3]
    rw [hv]; exact hv

lemma toItalicChar_idem (c : Nat) :
    toItalicChar (toItalicChar c) = toItalicChar c := by
  by_cases h1 : 65 ≤ charCodeAt0 c ∧ charCodeAt0 c ≤ 90
  · have hv : toItalicChar c = 120328 + (charCodeAt0 c - 65) := by
      simp only [toItalicChar]; rw [if_pos h1]
    rw [hv]; exact (glyphChar_astral _ (by omega)).2.1
  by_cases h2 : 97 ≤ charCodeAt0 c ∧ charCodeAt0 c ≤ 122
  · have hv : toItalicChar c = 120354 + (charCodeAt0 c - 97) := by
      simp only [toItalicChar]; rw [if_neg h1, if_pos h2]
    rw [hv]; exact (glyphChar_astral _ (by omega)).2.1
  · have hv : toItalicChar c = c := by
      simp only [toItalicChar]; rw [if_neg h1, if_neg h2]
    rw [hv]; exact hv

lemma toBoldItalicChar_idem (c : Nat) :
    toBoldItalicChar (toBoldItalicChar c) = toBoldItalicChar c := by
  by_cases h1 : 65 ≤ charCodeAt0 c ∧ charCodeAt0 c ≤ 90
  · have hv : toBoldItalicChar c = 120380 + (charCodeAt0 c - 65) := by
      simp only [toBoldItalicChar]; rw [if_pos h1]
    rw [hv]; exact (glyphChar_astral _ (by omega)).2.2
  by_cases h2 : 97 ≤ charCodeAt0 c ∧ charCodeAt0 c ≤ 122
  · have hv : toBoldItalicChar c = 120406 + (charCodeAt0 c - 97) := by
      simp only [toBoldItalicChar]; rw [if_neg h1, if_pos h2]
    rw [hv]; exact (glyphChar_astral _ (by omega)).2.2
  · have hv : toBoldItalicChar c = c := by
      simp only [toBoldItalicChar]; rw [if_neg h1, if_neg h2]
    rw [hv]; exact hv

lemma map_idem_of_char {f : Nat → Nat} (hf : ∀ c, f (f c) = f c)
    (s : List Nat) : (s.map f).map f = s.map f := by
  induction s with
  | nil => rfl
  | cons c t ih => simp [List.map_cons, hf, ih]

/-- C9: `toBold`, `toItalic` and `toBoldItalic` are pure per-character maps:
ASCII letters map to fixed offsets within the Mathematical Alphanumeric
Symbols bold / italic / bold-italic ranges, `toBold` additionally maps the
digits 0–9, and every other character is returned unchanged in place. -/
theorem glyph_maps_per_char (c : Nat) (s : List Nat) :
    (toBold s = s.map toBoldChar ∧ toItalic s = s.map toItalicChar ∧
      toBoldItalic s = s.map toBoldItalicChar) ∧
    (65 ≤ c ∧ c ≤ 90 →
      toBoldChar c = 0x1D5D4 + (c - 65) ∧
      toItalicChar c = 0x1D608 + (c - 65) ∧
      toBoldItalicChar c = 0x1D63C + (c - 65)) ∧
    (97 ≤ c ∧ c ≤ 122 →
      toBoldChar c = 0x1D5EE + (c - 97) ∧
      toItalicChar c = 0x1D622 + (c - 97) ∧
      toBoldItalicChar c = 0x1D656 + (c - 97)) ∧
    (48 ≤ c ∧ c ≤ 57 →
      toBoldChar c = 0x1D7EC + (c - 48) ∧
      toItalicChar c = c ∧ toBoldItalicChar c = c) ∧
    (¬ (65 ≤ c ∧ c ≤ 90) → ¬ (97 ≤ c ∧ c ≤ 122) → ¬ (48 ≤ c ∧ c ≤ 57) →
      toBoldChar c = c ∧ toItalicChar c = c ∧ toBoldItalicChar c = c) := by
  refine ⟨⟨rfl, rfl, rfl⟩, ?_, ?_, ?_, ?_⟩ <;>
    · intros
      simp only [toBoldChar, toItalicChar, toBoldItalicChar, charCodeAt0]
      refine ⟨?_, ?_, ?_⟩ <;> (split_ifs <;> omega)

/-- Witness for `glyph_maps_per_char` at `c = 66` ('B'): the letter is mapped
into each styled range, and at `c = 33` ('!'): punctuation is unchanged. -/
theorem glyph_maps_per_char_witness :
    toBoldChar 66 = 0x1D5D5 ∧ toItalicChar 66 = 0x1D609 ∧
      toBoldItalicChar 66 = 0x1D63D ∧ toBoldChar 33 = 33 := by
  refine ⟨?_, ?_, ?_, ?_⟩
  · exact ((glyph_maps_per_char 66 []).2.1 (by decide)).1
  · exact ((glyph_maps_per_char 66 []).2.1 (by decide)).2.1
  · exact ((glyph_maps_per_char 66 []).2.1 (by decide)).2.2
  · exact ((glyph_maps_per_char 33 []).2.2.2.2 (by decide) (by decide)
      (by decide)).1

/-- C10: each glyph map is idempotent — the Mathematical Alphanumeric glyphs
it produces are astral code points whose leading UTF-16 code unit is a
surrogate, far outside the ASCII ranges the per-character maps act on, so a
second application changes nothing. -/
theorem glyph_maps_idempotent (s : List Nat) :
    toBold (toBold s) = toBold s ∧ toItalic (toItalic s) = toItalic s ∧
      toBoldItalic (toBoldItalic s) = toBoldItalic s :=
  ⟨map_idem_of_char toBoldChar_idem s, map_idem_of_char toItalicChar_idem s,
    map_idem_of_char toBoldItalicChar_idem s⟩

/-- JavaScript `\s` / `trim` whitespace class. -/
def isJsSpace (c : Nat) : Bool :=
  c == 9 || c == 10 || c == 11 || c == 12 || c == 13 || c == 32 ||
  c == 160 || c == 5760 || (Nat.ble 8192 c && Nat.ble c 8202) ||
  c == 8232 || c == 8233 || c == 8239 || c == 8287 || c == 12288 ||
  c == 65279

/-- JavaScript `\w`: ASCII letters, digits and underscore. -/
def isWordChar (c : Nat) : Bool :=
  (Nat.ble 48 c && Nat.ble c 57) || (Nat.ble 65 c && Nat.ble c 90) ||
  (Nat.ble 97 c && Nat.ble c 122) || c == 95

/-- ASCII alphanumerics, the class `[a-zA-Z0-9]` used by the italic
lookarounds of the preprocessor. -/
def isAsciiAlnum (c : Nat) : Bool :=
  (Nat.ble 48 c && Nat.ble c 57) || (Nat.ble 65 c && Nat.ble c 90) ||
  (Nat.ble 97 c && Nat.ble c 122)

/-- JavaScript `.` without the `s` flag: anything but a line terminator. -/
def isDotChar (c : Nat) : Bool :=
  !(c == 10 || c == 13 || c == 8232 || c == 8233)

/-- Lazy `(.+?)` up to a closing delimiter: the shortest nonempty run of
non-line-terminator characters followed by `close`; returns the content and
the remainder after the closing delimiter. -/
def grabLazyAux (close : List Nat) :
    List Nat → List Nat → Option (List Nat × List Nat)
  | _, [] => none
  | acc, c :: rest =>
    if isDotChar c then
      if close.isPrefixOf rest then
        some ((c :: acc).reverse, rest.drop close.length)
      else grabLazyAux close (c :: acc) rest
    else none

/-- See `grabLazyAux`. -/
def grabLazy (close s : List Nat) : Option (List Nat × List Nat) :=
  grabLazyAux close [] s

/-- One global-replace pass of `/delim(.+?)delim/g`, transforming each
matched content with `tr` (the emphasis passes of `markdownToUnicode`). -/
def mdScanAux (delim : List Nat) (tr : List Nat → List Nat) :
    Nat → List Nat → List Nat
  | 0, s => s
  | _ + 1, [] => []
  | f + 1, c :: rest =>
    if delim.isPrefixOf (c :: rest) then
      match grabLazy delim ((c :: rest).drop delim.length) with
      | some (content, rest2) => tr content ++ mdScanAux delim tr f rest2
      | none => c :: mdScanAux delim tr f rest
    else c :: mdScanAux delim tr f rest

/-- See `mdScanAux`. -/
def mdScan (delim : List Nat) (tr : List Nat → List Nat) (s : List Nat) :
    List Nat := mdScanAux delim tr s.length s

/-- Decimal digits of `n`, as code points. -/
def natDigits (n : Nat) : List Nat := (Nat.repr n).data.map Char.toNat

/-- The placeholder `\u0000CODE${i}\u0000` of `markdownToUnicode`. -/
def mdPlaceholder (k : Nat) : List Nat :=
  0 :: (str "CODE" ++ natDigits k) ++ [0]

/-- Step 1 of `markdownToUnicode`: replace each inline-code match of
`/`([^`]+)`/g` by its placeholder, collecting the matches in order. -/
def mdProtectAux : Nat → Nat → List Nat → List Nat × List (List Nat)
  | 0, _, s => (s, [])
  | _ + 1, _, [] => ([], [])
  | f + 1, k, c :: rest =>
    if c = 96 then
      let content := rest.takeWhile (fun d => d != 96)
      let r2 := rest.drop content.length
      if content ≠ [] ∧ r2.head? = some 96 then
        let res := mdProtectAux f (k + 1) (r2.drop 1)
        (mdPlaceholder k ++ res.1, (96 :: content ++ [96]) :: res.2)
      else
        let res := mdProtectAux f k rest
        (c :: res.1, res.2)
    else
      let res := mdProtectAux f k rest
      (c :: res.1, res.2)

/-- JavaScript `String.replace` with a plain-string pattern: replace the
first occurrence only, identity when the pattern is absent. -/
def replaceFirst (pat rep : List Nat) : List Nat → List Nat
  | [] => []
  | c :: rest =>
    if pat.isPrefixOf (c :: rest) then rep ++ (c :: rest).drop pat.length
    else c :: replaceFirst pat rep rest

/-- `markdownToUnicode` from `unicode-formatter.ts`: protect inline code,
apply the four emphasis passes (bold-italic, bold, `*`-italic, `_`-italic),
restore the placeholders. -/
def markdownToUnicode (text : List Nat) : List Nat :=
  let p := mdProtectAux (text.length + 1) 0 text
  let t1 := mdScan [42, 42, 42] toBoldItalic p.1
  let t2 := mdScan [42, 42] toBold t1
  let t3 := mdScan [42] toItalic t2
  let t4 := mdScan [95] toItalic t3
  p.2.enum.foldl (fun acc kb => replaceFirst (mdPlaceholder kb.1) kb.2 acc) t4

/-- One line of `listToBullets`: rewrite `^([\s]*)[-*]\s+` to `$1• `. -/
def bulletLine (line : List Nat) : List Nat :=
  let ind := line.takeWhile isJsSpace
  match line.drop ind.length with
  | m :: r2 =>
    if (m = 45 ∨ m = 42) ∧ r2.takeWhile isJsSpace ≠ [] then
      ind ++ [8226, 32] ++ r2.drop (r2.takeWhile isJsSpace).length
    else line
  | [] => line

/-- `listToBullets` from `unicode-formatter.ts`. -/
def listToBullets (s : List Nat) : List Nat :=
  List.intercalate [10] ((s.splitOn 10).map bulletLine)

/-- The backtick-stripping pass of `formatForLinkedIn`:
`replace(/`([^`]+)`/g, '$1')`. -/
def stripBackticksAux : Nat → List Nat → List Nat
  | 0, s => s
  | _ + 1, [] => []
  | f + 1, c :: rest =>
    if c = 96 then
      let content := rest.takeWhile (fun d => d != 96)
      let r2 := rest.drop content.length
      if content ≠ [] ∧ r2.head? = some 96 then
        content ++ stripBackticksAux f (r2.drop 1)
      else c :: stripBackticksAux f rest
    else c :: stripBackticksAux f rest

/-- See `stripBackticksAux`. -/
def stripBackticks (s : List Nat) : List Nat :=
  stripBackticksAux s.length s

/-- The paragraph pass of `formatForLinkedIn`:
`replace(/\n{1}(?!\n)/g, '\n\n')`. -/
def nlSpreadAux : Nat → List Nat → List Nat
  | 0, s => s
  | _ + 1, [] => []
  | f + 1, c :: rest =>
    if c = 10 then
      if rest.head? = some 10 then 10 :: nlSpreadAux f rest
      else 10 :: 10 :: nlSpreadAux f rest
    else c :: nlSpreadAux f rest

/-- See `nlSpreadAux`. -/
def nlSpread (s : List Nat) : List Nat := nlSpreadAux s.length s

/-- The hashtag pass of `formatForLinkedIn`: remove every match of
`/#[\w]+/g` from the text, collecting the matches in scan order. -/
def extractHashtagsAux : Nat → List Nat → List Nat × List (List Nat)
  | 0, s => (s, [])
  | _ + 1, [] => ([], [])
  | f + 1, c :: rest =>
    if c = 35 ∧ rest.takeWhile isWordChar ≠ [] then
      let res := extractHashtagsAux f (rest.dropWhile isWordChar)
      (res.1, (35 :: rest.takeWhile isWordChar) :: res.2)
    else
      let res := extractHashtagsAux f rest
      (c :: res.1, res.2)

/-- See `extractHashtagsAux`. -/
def extractHashtags (s : List Nat) : List Nat × List (List Nat) :=
  extractHashtagsAux s.length s

/-- JavaScript `String.trim`. -/
def trimJs (s : List Nat) : List Nat :=
  ((s.dropWhile isJsSpace).reverse.dropWhile isJsSpace).reverse

/-- The pipeline of `formatForLinkedIn` before hashtag extraction:
glyph substitution, backtick stripping, bullets, paragraph spacing. -/
def linkedinPreHashtag (s : List Nat) : List Nat :=
  nlSpread (listToBullets (stripBackticks (markdownToUnicode s)))

/-- `formatForLinkedIn` from `unicode-formatter.ts`. -/
def formatForLinkedIn (markdown : List Nat) : List Nat :=
  let bt := extractHashtags (linkedinPreHashtag markdown)
  let formatted :=
    if bt.2 = [] then bt.1
    else trimJs bt.1 ++ [10, 10] ++ List.intercalate [32] bt.2
  trimJs formatted

/-- First index at which `pat` occurs in the list, if any. -/
def findSub (pat : List Nat) : List Nat → Option Nat
  | [] => if pat.isPrefixOf ([] : List Nat) then some 0 else none
  | c :: rest =>
    if pat.isPrefixOf (c :: rest) then some 0
    else (findSub pat rest).map (fun j => j + 1)

/-- JavaScript `String.includes` for our model. -/
def containsSub (pat s : List Nat) : Bool := (findSub pat s).isSome

/-- A protected range of `protectCodeBlocks` in `preprocess.ts`:
start/end offsets, placeholder and original text (the `type` field is
encoded in the placeholder text, as in the source). -/
structure PRange where
  rstart : Nat
  rend : Nat
  placeholder : List Nat
  original : List Nat

/-- Matches of `/```[\s\S]*?```|~~~[\s\S]*?~~~/g` with their positions. -/
def fenceScanAux : Nat → Nat → List Nat → List (Nat × List Nat)
  | 0, _, _ => []
  | _ + 1, _, [] => []
  | f + 1, i, c :: rest =>
    if [96, 96, 96].isPrefixOf (c :: rest) then
      match findSub [96, 96, 96] ((c :: rest).drop 3) with
      | some j =>
        (i, (c :: rest).take (j + 6)) ::
          fenceScanAux f (i + j + 6) ((c :: rest).drop (j + 6))
      | none => fenceScanAux f (i + 1) rest
    else if [126, 126, 126].isPrefixOf (c :: rest) then
      match findSub [126, 126, 126] ((c :: rest).drop 3) with
      | some j =>
        (i, (c :: rest).take (j + 6)) ::
          fenceScanAux f (i + j + 6) ((c :: rest).drop (j + 6))
      | none => fenceScanAux f (i + 1) rest
    else fenceScanAux f (i + 1) rest

/-- Matches of `/`[^`\n]+`/g` with their positions. -/
def inlineScanAux : Nat → Nat → List Nat → List (Nat × List Nat)
  | 0, _, _ => []
  | _ + 1, _, [] => []
  | f + 1, i, c :: rest =>
    if c = 96 then
      let content := rest.takeWhile (fun d => !(d == 96 || d == 10))
      let r2 := rest.drop content.length
      if content ≠ [] ∧ r2.head? = some 96 then
        (i, 96 :: content ++ [96]) ::
          inlineScanAux f (i + content.length + 2) (r2.drop 1)
      else inlineScanAux f (i + 1) rest
    else inlineScanAux f (i + 1) rest

/-- Insert into a list sorted by descending `rstart`
(the `(a, b) => b.start - a.start` comparator). -/
def insertDesc (r : PRange) : List PRange → List PRange
  | [] => [r]
  | x :: xs =>
    if Nat.blt x.rstart r.rstart then r :: x :: xs else x :: insertDesc r xs

/-- Sort ranges by descending start position. -/
def sortRangesDesc (l : List PRange) : List PRange :=
  l.foldl (fun acc r => insertDesc r acc) []

/-- `protectCodeBlocks` from `preprocess.ts`: collect fenced-block matches,
then inline-code matches not inside a fence; number the placeholders in push
order; sort descending by start and splice the placeholders in. -/
def protectCodeBlocks (text : List Nat) : List Nat × List PRange :=
  let fences := fenceScanAux (text.length + 1) 0 text
  let frs := fences.enum.map (fun kb =>
    PRange.mk kb.2.1 (kb.2.1 + kb.2.2.length)
      (str "__PROTECTED_FENCE_" ++ natDigits kb.1 ++ str "__") kb.2.2)
  let inls := (inlineScanAux (text.length + 1) 0 text).filter
    (fun sm => !(frs.any (fun r => Nat.ble r.rstart sm.1 && Nat.blt sm.1 r.rend)))
  let irs := inls.enum.map (fun kb =>
    PRange.mk kb.2.1 (kb.2.1 + kb.2.2.length)
      (str "__PROTECTED_INLINE_" ++ natDigits (frs.length + kb.1) ++ str "__")
      kb.2.2)
  let ranges := sortRangesDesc (frs ++ irs)
  let masked := ranges.foldl
    (fun acc r => acc.take r.rstart ++ r.placeholder ++ acc.drop r.rend) text
  (masked, ranges)

/-- `restoreCodeBlocks` from `preprocess.ts`. -/
def restoreCodeBlocks (text : List Nat) (ranges : List PRange) : List Nat :=
  ranges.foldl (fun acc r => replaceFirst r.placeholder r.original acc) text

/-- Lazy `([^d\n]+?)` followed by the closing delimiter `d` with a `(?!d)`
lookahead: content is the run up to the first `d`, which must exist, be
preceded by at least one character, and not be doubled. -/
def grabEmph (d : Nat) (s : List Nat) : Option (List Nat × List Nat) :=
  let content := s.takeWhile (fun c => !(c == d || c == 10))
  match s.drop content.length with
  | e :: r3 =>
    if e = d ∧ content ≠ [] ∧ r3.head? ≠ some d then some (content, r3)
    else none
  | [] => none

/-- Lazy `([^_\n]+?)` followed by `_` with a `(?![a-zA-Z0-9])` lookahead,
for the italic pass. -/
def grabUnder (s : List Nat) : Option (List Nat × List Nat) :=
  let content := s.takeWhile (fun c => !(c == 95 || c == 10))
  match s.drop content.length with
  | e :: r3 =>
    if e = 95 ∧ content ≠ [] ∧
        (match r3.head? with | some x => !isAsciiAlnum x | none => true) = true
    then some (content, r3) else none
  | [] => none

/-- `transformStrikethrough`:
`/(?<!\\)(?<!~)~(?!~)([^~\n]+?)~(?!~)/g` → `~~$1~~`, skipping matches that
contain a protection placeholder. -/
def transformStrikethroughAux (ranges : List PRange) :
    Nat → Option Nat → List Nat → List Nat
  | 0, _, s => s
  | _ + 1, _, [] => []
  | f + 1, prev, c :: rest =>
    if c = 126 ∧ prev ≠ some 92 ∧ prev ≠ some 126 ∧ rest.head? ≠ some 126 then
      match grabEmph 126 rest with
      | some (content, rest2) =>
        (if ranges.any (fun r =>
              containsSub r.placeholder (126 :: content ++ [126]))
          then 126 :: content ++ [126]
          else 126 :: 126 :: content ++ [126, 126]) ++
          transformStrikethroughAux ranges f (some 126) rest2
      | none => c :: transformStrikethroughAux ranges f (some c) rest
    else c :: transformStrikethroughAux ranges f (some c) rest

/-- See `transformStrikethroughAux`. -/
def transformStrikethrough (text : List Nat) (ranges : List PRange) :
    List Nat := transformStrikethroughAux ranges text.length none text

/-- `transformBold`:
`/(?<!\\)(?<!\*)\*(?!\*)([^\*\n]+?)\*(?!\*)/g` → `**$1**`. -/
def transformBoldAux (ranges : List PRange) :
    Nat → Option Nat → List Nat → List Nat
  | 0, _, s => s
  | _ + 1, _, [] => []
  | f + 1, prev, c :: rest =>
    if c = 42 ∧ prev ≠ some 92 ∧ prev ≠ some 42 ∧ rest.head? ≠ some 42 then
      match grabEmph 42 rest with
      | some (content, rest2) =>
        (if ranges.any (fun r =>
              containsSub r.placeholder (42 :: content ++ [42]))
          then 42 :: content ++ [42]
          else 42 :: 42 :: content ++ [42, 42]) ++
          transformBoldAux ranges f (some 42) rest2
      | none => c :: transformBoldAux ranges f (some c) rest
    else c :: transformBoldAux ranges f (some c) rest

/-- See `transformBoldAux`. -/
def transformBold (text : List Nat) (ranges : List PRange) : List Nat :=
  transformBoldAux ranges text.length none text

/-- `transformItalic`:
`/(?<!\\)(?<![a-zA-Z0-9])_([^_\n]+?)_(?![a-zA-Z0-9])/g` → `*$1*`. -/
def transformItalicAux (ranges : List PRange) :
    Nat → Option Nat → List Nat → List Nat
  | 0, _, s => s
  | _ + 1, _, [] => []
  | f + 1, prev, c :: rest =>
    if c = 95 ∧ prev ≠ some 92 ∧
        (match prev with | some p => !isAsciiAlnum p | none => true) = true then
      match grabUnder rest with
      | some (content, rest2) =>
        (if ranges.any (fun r =>
              containsSub r.placeholder (95 :: content ++ [95]))
          then 95 :: content ++ [95]
          else 42 :: content ++ [42]) ++
          transformItalicAux ranges f (some 95) rest2
      | none => c :: transformItalicAux ranges f (some c) rest
    else c :: transformItalicAux ranges f (some c) rest

/-- See `transformItalicAux`. -/
def transformItalic (text : List Nat) (ranges : List PRange) : List Nat :=
  transformItalicAux ranges text.length none text

/-- `PreprocessOptions` from `types.ts`; `preserveCode` is declared but, as
in the source, never read by the pipeline. -/
structure PreprocessOptions where
  enabled : Bool
  preserveCode : Bool := true

/-- `preprocessWhatsApp` from `preprocess.ts`: identity when disabled,
otherwise mask code, then strikethrough, bold, italic, then restore. -/
def preprocessWhatsApp (input : List Nat)
    (options : PreprocessOptions) : List Nat :=
  if options.enabled then
    let p := protectCodeBlocks input
    let t1 := transformStrikethrough p.1 p.2
    let t2 := transformBold t1 p.2
    let t3 := transformItalic t2 p.2
    restoreCodeBlocks t3 p.2
  else input

/-- Step 1 of the WhatsApp preset: `replace(/\n\n+/g, '\n')`. -/
def collapseNewlinesAux : Nat → List Nat → List Nat
  | 0, s => s
  | _ + 1, [] => []
  | f + 1, c :: rest =>
    if c = 10 ∧ rest.head? = some 10 then
      10 :: collapseNewlinesAux f (rest.dropWhile (fun d => d == 10))
    else c :: collapseNewlinesAux f rest

/-- See `collapseNewlinesAux`. -/
def collapseNewlines (s : List Nat) : List Nat :=
  collapseNewlinesAux s.length s

/-- WhatsApp-preset italic rewrite:
`/(?<!\*)\*(?!\*)([^*\n]+?)\*(?!\*)/g` → `_$1_` (no escape handling, no
code protection — as in `presets.ts`). -/
def waItalicAux : Nat → Option Nat → List Nat → List Nat
  | 0, _, s => s
  | _ + 1, _, [] => []
  | f + 1, prev, c :: rest =>
    if c = 42 ∧ prev ≠ some 42 ∧ rest.head? ≠ some 42 then
      match grabEmph 42 rest with
      | some (content, rest2) =>
        95 :: content ++ [95] ++ waItalicAux f (some 42) rest2
      | none => c :: waItalicAux f (some c) rest
    else c :: waItalicAux f (some c) rest

/-- Lazy, possibly empty `(.*?)` up to a literal `**`. -/
def grabPair (acc : List Nat) : List Nat → Option (List Nat × List Nat)
  | [] => none
  | c :: rest =>
    if [42, 42].isPrefixOf (c :: rest) then some (acc.reverse, rest.drop 1)
    else if isDotChar c then grabPair (c :: acc) rest
    else none

/-- WhatsApp-preset bold rewrite: `/\*\*(.*?)\*\*/g` → `*$1*`. -/
def waBoldAux : Nat → List Nat → List Nat
  | 0, s => s
  | _ + 1, [] => []
  | f + 1, c :: rest =>
    if [42, 42].isPrefixOf (c :: rest) then
      match grabPair [] (rest.drop 1) with
      | some (content, rest2) => 42 :: content ++ [42] ++ waBoldAux f rest2
      | none => c :: waBoldAux f rest
    else c :: waBoldAux f rest

/-- The markdown field of `applyWhatsAppPreset` from `presets.ts`: collapse
blank lines, then italic → underscore BEFORE bold → single-asterisk.  (The
`html` field is produced by the external renderer and is out of scope.) -/
def applyWhatsAppPreset (markdown : List Nat) : List Nat :=
  let p1 := collapseNewlines markdown
  let p2 := waItalicAux p1.length none p1
  waBoldAux p2.length p2

/-- The markdown field of `applyLinkedInPreset` from `presets.ts`. -/
def applyLinkedInPreset (markdown : List Nat) : List Nat :=
  formatForLinkedIn markdown

/-- The markdown field of `applyEmailPreset` from `presets.ts`: the input
is returned unchanged (only the `html` wrapper, out of scope here, is
built). -/
def applyEmailPreset (markdown : List Nat) : List Nat := markdown

/-- `applyPreset` from `presets.ts`, restricted to its markdown output:
dispatch on the preset selector, throwing `Unknown preset: ${preset}` for
an unrecognized one.  The `html` and `notes` fields are observational and
delegate to the external renderer, so they are not modelled. -/
def applyPreset (markdown preset : List Nat) :
    Except (List Nat) (List Nat) :=
  if preset = str "linkedin" then .ok (applyLinkedInPreset markdown)
  else if preset = str "whatsapp" then .ok (applyWhatsAppPreset markdown)
  else if preset = str "email" then .ok (applyEmailPreset markdown)
  else .error (str "Unknown preset: " ++ preset)

/-- `body` and `tags` reassemble into `s`: `s` is `body` with the `tags`
spliced in at their original positions, in order.  Witnesses that the
extractor removes each tag from its position and keeps left-to-right
order. -/
inductive Reassembles : List Nat → List (List Nat) → List Nat → Prop where
  | nil : Reassembles [] [] []
  | keep (c : Nat) {b : List Nat} {t : List (List Nat)} {s : List Nat} :
      Reassembles b t s → Reassembles (c :: b) t (c :: s)
  | tag {tg : List Nat} {b : List Nat} {t : List (List Nat)} {s : List Nat} :
      tg ≠ [] → Reassembles b t s → Reassembles b (tg :: t) (tg ++ s)

lemma takeWhile_all (p : Nat → Bool) (l : List Nat) :
    (l.takeWhile p).all p = true := by
  induction l with
  | nil => rfl
  | cons c rest ih =>
    by_cases h : p c
    · simp [List.takeWhile, h, ih]
    · simp [List.takeWhile, h]

lemma dropWhile_length_le (p : Nat → Bool) (l : List Nat) :
    (l.dropWhile p).length ≤ l.length := by
  induction l with
  | nil => simp
  | cons c rest ih =>
    by_cases h : p c
    · simp only [List.dropWhile, h]
      exact le_trans ih (Nat.le_succ _)
    · simp [List.dropWhile, h]

lemma extractHashtagsAux_spec : ∀ (fuel : Nat) (s : List Nat),
    s.length ≤ fuel →
    Reassembles (extractHashtagsAux fuel s).1 (extractHashtagsAux fuel s).2 s ∧
    ∀ tg ∈ (extractHashtagsAux fuel s).2,
      ∃ w, tg = 35 :: w ∧ w ≠ [] ∧ w.all isWordChar = true := by
  intro fuel
  induction fuel with
  | zero =>
    intro s hs
    have : s = [] := List.eq_nil_of_length_eq_zero (Nat.le_zero.mp hs)
    subst this
    exact ⟨Reassembles.nil, by simp [extractHashtagsAux]⟩
  | succ f ih =>
    intro s hs
    match s with
    | [] => exact ⟨Reassembles.nil, by simp [extractHashtagsAux]⟩
    | c :: rest =>
      have hrest : rest.length ≤ f := by
        simpa using Nat.succ_le_succ_iff.mp hs
      by_cases hc : c = 35 ∧ rest.takeWhile isWordChar ≠ []
      · have hdrop : (rest.dropWhile isWordChar).length ≤ f :=
          le_trans (dropWhile_length_le _ _) hrest
        obtain ⟨hR, hT⟩ := ih (rest.dropWhile isWordChar) hdrop
        have heq : extractHashtagsAux (f + 1) (c :: rest) =
            ((extractHashtagsAux f (rest.dropWhile isWordChar)).1,
             (35 :: rest.takeWhile isWordChar) ::
               (extractHashtagsAux f (rest.dropWhile isWordChar)).2) := by
          simp only [extractHashtagsAux, if_pos hc]
        rw [heq]
        constructor
        · have hsplit : c :: rest =
              (35 :: rest.takeWhile isWordChar) ++ rest.dropWhile isWordChar := by
            rw [hc.1]
            simp [List.takeWhile_append_dropWhile]
          rw [hsplit]
          exact Reassembles.tag (by simp) hR
        · intro tg htg
          rcases List.mem_cons.mp htg with h | h
          · exact ⟨rest.takeWhile isWordChar, h, hc.2, takeWhile_all _ _⟩
          · exact hT tg h
      · obtain ⟨hR, hT⟩ := ih rest hrest
        have heq : extractHashtagsAux (f + 1) (c :: rest) =
            (c :: (extractHashtagsAux f rest).1,
             (extractHashtagsAux f rest).2) := by
          simp only [extractHashtagsAux, if_neg hc]
        rw [heq]
        exact ⟨Reassembles.keep c hR, hT⟩

/-- C6: for every input to the styled-text preset, the extracted hashtags
are removed from their original positions in the body (the body and the tag
list reassemble into the pre-extraction text, preserving left-to-right
order), each tag is a `#`-plus-word-characters token, and the formatter
appends them space-separated after the whitespace-trimmed body. -/
theorem linkedin_hashtag_reflow (s : List Nat) :
    Reassembles (extractHashtags (linkedinPreHashtag s)).1
      (extractHashtags (linkedinPreHashtag s)).2 (linkedinPreHashtag s) ∧
    (∀ tg ∈ (extractHashtags (linkedinPreHashtag s)).2,
      ∃ w, tg = 35 :: w ∧ w ≠ [] ∧ w.all isWordChar = true) ∧
    formatForLinkedIn s =
      (if (extractHashtags (linkedinPreHashtag s)).2 = []
       then trimJs (extractHashtags (linkedinPreHashtag s)).1
       else trimJs (trimJs (extractHashtags (linkedinPreHashtag s)).1 ++
         [10, 10] ++
         List.intercalate [32] (extractHashtags (linkedinPreHashtag s)).2)) := by
  obtain ⟨hR, hT⟩ :=
    extractHashtagsAux_spec (linkedinPreHashtag s).length
      (linkedinPreHashtag s) (le_refl _)
  refine ⟨hR, hT, ?_⟩
  by_cases h : (extractHashtags (linkedinPreHashtag s)).2 = []
  · simp [formatForLinkedIn, h]
  · simp [formatForLinkedIn, h]

/-- C5: `applyPreset` fails — with an error message naming the unknown
selector — exactly when the selector is none of `linkedin`, `whatsapp`,
`email`; for the three recognized selectors every stage of the (markdown)
pipeline is total and the result is returned. -/
theorem applyPreset_dispatch (s t : List Nat) :
    ((applyPreset s t).isOk = true ↔
      (t = str "linkedin" ∨ t = str "whatsapp" ∨ t = str "email")) ∧
    (¬ (t = str "linkedin" ∨ t = str "whatsapp" ∨ t = str "email") →
      applyPreset s t = .error (str "Unknown preset: " ++ t)) := by
  by_cases h1 : t = str "linkedin"
  · subst h1
    exact ⟨iff_of_true rfl (Or.inl rfl), fun h => absurd (Or.inl rfl) h⟩
  by_cases h2 : t = str "whatsapp"
  · subst h2
    refine ⟨iff_of_true ?_ (Or.inr (Or.inl rfl)),
      fun h => absurd (Or.inr (Or.inl rfl)) h⟩
    show (applyPreset s (str "whatsapp")).isOk = true
    unfold applyPreset
    rw [if_neg (by decide), if_pos rfl]
    rfl
  by_cases h3 : t = str "email"
  · subst h3
    refine ⟨iff_of_true ?_ (Or.inr (Or.inr rfl)),
      fun h => absurd (Or.inr (Or.inr rfl)) h⟩
    show (applyPreset s (str "email")).isOk = true
    unfold applyPreset
    rw [if_neg (by decide), if_neg (by decide), if_pos rfl]
    rfl
  · have he : applyPreset s t = .error (str "Unknown preset: " ++ t) := by
      simp [applyPreset, h1, h2, h3]
    refine ⟨iff_of_false ?_ ?_, fun _ => he⟩
    · rw [he]; simp [Except.isOk, Except.toBool]
    · intro h
      rcases h with h | h | h
      · exact h1 h
      · exact h2 h
      · exact h3 h

/-- Witness for `applyPreset_dispatch`: the unrecognized selector `twitter`
is rejected with an error naming it. -/
theorem applyPreset_dispatch_witness :
    applyPreset (str "hello") (str "twitter") =
      .error (str "Unknown preset: " ++ str "twitter") :=
  (applyPreset_dispatch (str "hello") (str "twitter")).2 (by decide)

/-- C7: with chat-syntax preprocessing enabled the passes run strikethrough,
then bold, then italic; on `*bold* and _italic_ and ~strike~` this yields
`**bold** and *italic* and ~~strike~~`, and the pipeline coincides with
that three-pass composition, while running bold after italic instead would
re-capture the italic output as bold (`**italic**`). -/
theorem preprocess_pass_order :
    preprocessWhatsApp (str "*bold* and _italic_ and ~strike~")
        ⟨true, true⟩ = str "**bold** and *italic* and ~~strike~~" ∧
    preprocessWhatsApp (str "*bold* and _italic_ and ~strike~")
        ⟨true, true⟩ =
      transformItalic (transformBold
        (transformStrikethrough
          (str "*bold* and _italic_ and ~strike~") []) []) [] ∧
    transformBold (transformItalic
        (transformStrikethrough
          (str "*bold* and _italic_ and ~strike~") []) []) [] =
      str "**bold** and **italic** and ~~strike~~" := by
  refine ⟨by decide, by decide, by decide⟩

/-- C8: the chat-syntax preprocessor is the identity when disabled,
whatever the other options and the input. -/
theorem preprocess_disabled_identity (input : List Nat)
    (options : PreprocessOptions) (h : options.enabled = false) :
    preprocessWhatsApp input options = input := by
  simp [preprocessWhatsApp, h]

/-- Witness for `preprocess_disabled_identity` on a concrete input that the
enabled pipeline would rewrite. -/
theorem preprocess_disabled_identity_witness :
    preprocessWhatsApp (str "*x*") ⟨false, true⟩ = str "*x*" :=
  preprocess_disabled_identity (str "*x*") ⟨false, true⟩ rfl

/-- C1 counterexample: the styled-text preset is not idempotent — on
`"x\ny"` it produces `"x\n\ny"`, and re-applying it to that output yields
`"x\n\n\ny"` (the paragraph pass doubles the second newline of an existing
blank line), so re-application changes the markdown output. -/
theorem preset_idempotence_cex :
    applyPreset (str "x\ny") (str "linkedin") = .ok (str "x\n\ny") ∧
    applyPreset (str "x\n\ny") (str "linkedin") = .ok (str "x\n\n\ny") ∧
    str "x\n\n\ny" ≠ str "x\n\ny" :=
  ⟨rfl, rfl, by decide⟩

/-- C1 amended: only the document-wrapper (`email`) preset is idempotent on
its markdown output (it returns the input unchanged); the styled-text
(`linkedin`) and reverse-chat-syntax (`whatsapp`) presets are not —
re-applying them to their own markdown output can change it. -/
theorem preset_idempotence_amended :
    (∀ s, applyPreset s (str "email") = .ok s) ∧
    (∃ s t u, applyPreset s (str "linkedin") = .ok t ∧
       applyPreset t (str "linkedin") = .ok u ∧ u ≠ t) ∧
    (∃ s t u, applyPreset s (str "whatsapp") = .ok t ∧
       applyPreset t (str "whatsapp") = .ok u ∧ u ≠ t) :=
  ⟨fun _ => rfl,
   ⟨str "x\ny", str "x\n\ny", str "x\n\n\ny", rfl, rfl, by decide⟩,
   ⟨str "**b**", str "*b*", str "_b_", rfl, rfl, by decide⟩⟩

/-- C2: the hashtag pass of `formatForLinkedIn` matches every `#`-word
token with no hex-color exemption, so the hex-color literal `#671de7` is
relocated to the trailing hashtag line — contradicting the repository's own
test `should not treat hex color codes as hashtags`. -/
theorem hex_color_relocated_bug :
    formatForLinkedIn (str "- Primary: #671de7\n\n#design") =
      str "• Primary:\n\n#671de7 #design" ∧
    (extractHashtags (str "Primary: #671de7")).2 = [str "#671de7"] := by
  refine ⟨by decide, by decide⟩

/-- C3: `markdownToUnicode` does not keep code spans byte-identical — in
`**a `b` c**` the inline-code placeholder sits inside the bold span, gets
glyph-transformed, and can no longer be restored, so the code content `b`
is absent from the output, contradicting the function's own documentation
("Protects code blocks and inline code from transformation"). -/
theorem code_span_destroyed_bug :
    98 ∈ str "**a `b` c**" ∧
    ¬ 98 ∈ markdownToUnicode (str "**a `b` c**") := by
  refine ⟨by decide, by decide⟩

/-- C4 counterexample: the styled-text glyph substitution rewrites escaped
delimiters — `\*not bold\*` is not left unchanged by `markdownToUnicode`
(its regexes carry no backslash lookbehind). -/
theorem escaped_delims_cex :
    markdownToUnicode (str "\\*not bold\\*") ≠ str "\\*not bold\\*" := by
  decide

/-- C4 amended: in the chat-syntax normalizer a delimiter immediately
preceded by a backslash never opens a rewrite (each pass skips it), so
`\*not bold\*` and its tilde/underscore analogues pass through
`preprocessWhatsApp` unchanged; the styled-text glyph substitution
(`markdownToUnicode`), however, does not honor backslash escapes. -/
theorem escaped_delims_amended :
    (∀ (ranges : List PRange) (f : Nat) (s : List Nat),
      transformBoldAux ranges (f + 1) (some 92) (42 :: s) =
        42 :: transformBoldAux ranges f (some 42) s) ∧
    (∀ (ranges : List PRange) (f : Nat) (s : List Nat),
      transformStrikethroughAux ranges (f + 1) (some 92) (126 :: s) =
        126 :: transformStrikethroughAux ranges f (some 126) s) ∧
    (∀ (ranges : List PRange) (f : Nat) (s : List Nat),
      transformItalicAux ranges (f + 1) (some 92) (95 :: s) =
        95 :: transformItalicAux ranges f (some 95) s) ∧
    preprocessWhatsApp (str "\\*not bold\\*") ⟨true, true⟩ =
      str "\\*not bold\\*" ∧
    preprocessWhatsApp (str "\\~x\\~") ⟨true, true⟩ = str "\\~x\\~" ∧
    preprocessWhatsApp (str "\\_x\\_") ⟨true, true⟩ = str "\\_x\\_" ∧
    markdownToUnicode (str "\\*not bold\\*") ≠ str "\\*not bold\\*" := by
  refine ⟨?_, ?_, ?_, by decide, by decide, by decide, by decide⟩
  · intro ranges f s
    simp only [transformBoldAux]
    rw [if_neg (by simp)]
  · intro ranges f s
    simp only [transformStrikethroughAux]
    rw [if_neg (by simp)]
  · intro ranges f s
    simp only [transformItalicAux]
    rw [if_neg (by simp)]
